import Mathlib

/-!
Verification development for the chess rules engine
(`ChessEngine`, `Pawn`, and their collaborators).

The engine file (`ChessEngine`) and `Pawn.possibleMoves` are translated
directly.  The `Chessboard` container, the `Piece` base class with its
per-kind move generators, and the small value types (`Square`, `Side`,
`Player`, the event records) are not part of the provided sources, so they
are modelled from the specification (sections 3, 4.1 and 4.2); every such
definition carries a `Modelled from the spec:` note.

A JavaScript object keyed by strings `"<column><row>"` is modelled as an
association list `List (Square × Piece)`; for rows 1..8 and single-letter
columns the key string and the square determine each other, so square
equality is key equality.  Updating a key is modelled as erase-then-append
(the JS engine only ever deletes a key and then assigns a key on the
simulated board, and relocation order never matters for the properties
below).  `JSON.stringify` comparison of two position records built with the
same field order is structural equality of the square value.
-/

namespace Chess

/-- Modelled from the spec: `Side` is a two-valued enumeration (the source
names the values `Side.WHITE` / `Side.BLACK`). -/
inductive Side where
  | white
  | black
  deriving DecidableEq, Repr

/-- Modelled from the spec: the closed set of piece kinds; in the source each
kind is a class and its `name` field holds the class name string. -/
inductive PieceKind where
  | pawn
  | knight
  | bishop
  | rook
  | queen
  | king
  deriving DecidableEq, Repr

/-- Modelled from the spec: a piece has an opaque identity, a side, and a
kind (the kind stands for the missing piece subclass). -/
structure Piece where
  id : String
  kind : PieceKind
  side : Side
  deriving DecidableEq, Repr

/-- Modelled from the spec: the `name` field each piece subclass carries;
`kingPosition` tests it against the string `"King"`. -/
def Piece.name (p : Piece) : String :=
  match p.kind with
  | PieceKind.pawn => "Pawn"
  | PieceKind.knight => "Knight"
  | PieceKind.bishop => "Bishop"
  | PieceKind.rook => "Rook"
  | PieceKind.queen => "Queen"
  | PieceKind.king => "King"

/-- Modelled from the spec: `isOpponentOf` on the missing `Piece` base
class: two pieces are opponents when their sides differ. -/
def Piece.isOpponentOf (p q : Piece) : Bool :=
  decide (p.side ≠ q.side)

/-- Modelled from the spec: a square is a column (one of 8 files, a letter)
and a row (integer 1..8). -/
structure Square where
  column : Char
  row : Nat
  deriving DecidableEq, Repr

/-- Modelled from the spec: `Player` is a thin identity carrying a side. -/
structure Player where
  side : Side
  deriving DecidableEq, Repr

/-- Modelled from the spec: the board owns a mapping from occupied squares
to pieces (JS object keyed by `"<column><row>"`). -/
structure Chessboard where
  squaresWithPiece : List (Square × Piece)
  deriving DecidableEq, Repr

/-- Modelled from the spec: `pieceAt` / `onPositionPiece` lookup, no side
effect; first entry with the matching key. -/
def Chessboard.onPositionPiece (cb : Chessboard) (sq : Square) : Option Piece :=
  (cb.squaresWithPiece.find? (fun e => decide (e.1 = sq))).map (fun e => e.2)

/-- Remove the entry at a key (JS `delete map[key]`). -/
def eraseSquare (l : List (Square × Piece)) (sq : Square) : List (Square × Piece) :=
  l.filter (fun e => decide (e.1 ≠ sq))

/-- Assign a key (JS `map[key] = piece`), overwriting any previous entry. -/
def setSquare (l : List (Square × Piece)) (sq : Square) (p : Piece) : List (Square × Piece) :=
  eraseSquare l sq ++ [(sq, p)]

/-- Modelled from the spec: `movePiece(from, to)` relocates whatever piece
occupies `from` to `to`, overwriting any piece previously at `to` and
removing the `from` entry; the board is a dumb, trusted mutator, so an empty
`from` leaves the board unchanged. -/
def Chessboard.movePiece (cb : Chessboard) (squareFrom squareTo : Square) : Chessboard :=
  match cb.onPositionPiece squareFrom with
  | none => cb
  | some p => ⟨setSquare (eraseSquare cb.squaresWithPiece squareFrom) squareTo p⟩

/-- Modelled from the spec: the 8 files in order. -/
def columns : List Char := ['A', 'B', 'C', 'D', 'E', 'F', 'G', 'H']

/-- Modelled from the spec: move a square by a (file, row) offset; off-board
results are discarded, not errors. -/
def shiftSquare (sq : Square) (dc dr : Int) : Option Square :=
  match columns.findIdx? (fun x => decide (x = sq.column)) with
  | none => none
  | some ci =>
    let ci2 : Int := (ci : Int) + dc
    let r2 : Int := (sq.row : Int) + dr
    if 0 ≤ ci2 ∧ ci2 ≤ 7 ∧ 1 ≤ r2 ∧ r2 ≤ 8 then
      some { column := columns.getD ci2.toNat 'A', row := r2.toNat }
    else none

/-- Modelled from the spec: walk one sliding direction one square at a time;
stop at the board edge or at the first occupied square, which is included
only when it holds an opposing piece.  The fuel 7 bounds any walk on an
8×8 board. -/
def walkDir (cb : Chessboard) (movingSide : Side) : Nat → Square → Int → Int → List Square
  | 0, _, _, _ => []
  | fuel + 1, sq, dc, dr =>
    match shiftSquare sq dc dr with
    | none => []
    | some sq2 =>
      match cb.onPositionPiece sq2 with
      | none => sq2 :: walkDir cb movingSide fuel sq2 dc dr
      | some q => if q.side = movingSide then [] else [sq2]

/-- Modelled from the spec: a sliding piece's destinations are the walks of
each of its directions. -/
def slideMoves (p : Piece) (position : Square) (board : Chessboard)
    (dirs : List (Int × Int)) : List Square :=
  dirs.flatMap (fun d => walkDir board p.side 7 position d.1 d.2)

/-- Modelled from the spec: rook directions. -/
def rookDirs : List (Int × Int) := [(0, 1), (0, -1), (1, 0), (-1, 0)]

/-- Modelled from the spec: bishop directions. -/
def bishopDirs : List (Int × Int) := [(1, 1), (1, -1), (-1, 1), (-1, -1)]

/-- Modelled from the spec: knight offset set. -/
def knightOffsets : List (Int × Int) :=
  [(1, 2), (2, 1), (2, -1), (1, -2), (-1, -2), (-2, -1), (-2, 1), (-1, 2)]

/-- Modelled from the spec: king offset set. -/
def kingOffsets : List (Int × Int) :=
  [(0, 1), (1, 1), (1, 0), (1, -1), (0, -1), (-1, -1), (-1, 0), (-1, 1)]

/-- Modelled from the spec: a fixed-offset piece's destinations are the
in-bounds offsets that are empty or hold an opposing piece. -/
def offsetMoves (p : Piece) (position : Square) (board : Chessboard)
    (offsets : List (Int × Int)) : List Square :=
  (offsets.filterMap (fun d => shiftSquare position d.1 d.2)).filter
    (fun sq2 =>
      match board.onPositionPiece sq2 with
      | none => true
      | some q => decide (q.side ≠ p.side))

/-- Modelled from the spec: a pawn's forward direction is determined by its
side. -/
def pawnDirection (s : Side) : Int :=
  match s with
  | Side.white => 1
  | Side.black => -1

/-- Modelled from the spec: a pawn's starting row, from which alone the
double step is allowed. -/
def pawnStartRow (s : Side) : Nat :=
  match s with
  | Side.white => 2
  | Side.black => 7

/-- Modelled from the spec: single-step advance onto an empty square
(the `goAhead` sub-rule of the missing `Piece` base class). -/
def goAhead (p : Piece) (position : Square) (board : Chessboard) : List Square :=
  match shiftSquare position 0 (pawnDirection p.side) with
  | none => []
  | some sq2 =>
    match board.onPositionPiece sq2 with
    | none => [sq2]
    | some _ => []

/-- Modelled from the spec: double-step advance, only from the starting row
and only when both the intermediate and destination squares are empty
(the `goDoubleAhead` sub-rule). -/
def goDoubleAhead (p : Piece) (position : Square) (board : Chessboard) : List Square :=
  if position.row = pawnStartRow p.side then
    match shiftSquare position 0 (pawnDirection p.side),
        shiftSquare position 0 (2 * pawnDirection p.side) with
    | some mid, some dest =>
      match board.onPositionPiece mid, board.onPositionPiece dest with
      | none, none => [dest]
      | _, _ => []
    | _, _ => []
  else []

/-- Modelled from the spec: diagonal advance only onto a square occupied by
an opposing piece (the `goDiagonalAhead` sub-rule, up to two squares). -/
def goDiagonalAhead (p : Piece) (position : Square) (board : Chessboard) : List Square :=
  (([shiftSquare position (-1) (pawnDirection p.side),
      shiftSquare position 1 (pawnDirection p.side)]).filterMap id).filter
    (fun sq2 =>
      match board.onPositionPiece sq2 with
      | some q => decide (q.side ≠ p.side)
      | none => false)

/-- `Pawn.possibleMoves` from the source: start from an empty list and
concatenate the results of the three sub-rules, straight first, then
double, then diagonal. -/
def pawnPossibleMoves (p : Piece) (position : Square) (board : Chessboard) : List Square :=
  let movesToGo : List Square := []
  movesToGo ++ goAhead p position board ++ goDoubleAhead p position board ++
    goDiagonalAhead p position board

/-- Modelled from the spec: the polymorphic `possibleMoves(position, board)`
capability, dispatching on the piece kind (virtual dispatch in the source);
only the pawn branch is given by the sources. -/
def Piece.possibleMoves (p : Piece) (position : Square) (board : Chessboard) : List Square :=
  match p.kind with
  | PieceKind.pawn => pawnPossibleMoves p position board
  | PieceKind.knight => offsetMoves p position board knightOffsets
  | PieceKind.king => offsetMoves p position board kingOffsets
  | PieceKind.bishop => slideMoves p position board bishopDirs
  | PieceKind.rook => slideMoves p position board rookDirs
  | PieceKind.queen => slideMoves p position board (rookDirs ++ bishopDirs)

/-- Modelled from the spec: the `PieceWasMoved` domain event record. -/
structure PieceWasMoved where
  piece : Piece
  squareFrom : Square
  squareTo : Square
  deriving DecidableEq, Repr

/-- Modelled from the spec: the `PieceWasCaptured` domain event record. -/
structure PieceWasCaptured where
  piece : Piece
  onSquare : Square
  deriving DecidableEq, Repr

/-- The union `PieceWasMoved | PieceWasCaptured` returned by `move`. -/
inductive MoveEvent where
  | moved (e : PieceWasMoved)
  | captured (e : PieceWasCaptured)
  deriving DecidableEq, Repr

/-- The four failure kinds of `move`, one per `throw` site in the source, in
source order: no piece on the square, not the player's turn, not the
player's piece, destination not reachable. -/
inductive MoveError where
  | illegalMove
  | outOfTurn
  | wrongOwner
  | illegalDestination
  deriving DecidableEq, Repr

/-- The engine's state: whose turn it is (initially white) and the live
board.  The source's `readonly squaresWithPiece` alias of the board's map
is unused by every operation and is omitted. -/
structure ChessEngine where
  currentSide : Side
  board : Chessboard
  deriving DecidableEq, Repr

/-- `canMoveOnSquare` from the source: look the piece up again and test
whether some generated destination has the requested column and row;
an empty source square yields `false` (the `?? false` fallback). -/
def ChessEngine.canMoveOnSquare (e : ChessEngine) (squareFrom squareTo : Square) : Bool :=
  match e.board.onPositionPiece squareFrom with
  | none => false
  | some piece =>
    (piece.possibleMoves squareFrom e.board).any
      (fun possibleMove =>
        decide (possibleMove.column = squareTo.column) &&
          decide (possibleMove.row = squareTo.row))

/-- `pieceWasCaptured` from the source: a capture event exactly when the
destination currently holds a piece opposing the chosen piece. -/
def ChessEngine.pieceWasCaptured (e : ChessEngine) (squareTo : Square)
    (chosenPiece : Piece) : Option PieceWasCaptured :=
  match e.board.onPositionPiece squareTo with
  | some pieceOnSquare =>
    if pieceOnSquare.isOpponentOf chosenPiece then
      some { piece := pieceOnSquare, onSquare := squareTo }
    else none
  | none => none

/-- `changeTurn` from the source. -/
def ChessEngine.changeTurn (side : Side) : Side :=
  match side with
  | Side.white => Side.black
  | Side.black => Side.white

/-- `onPieceWasMoved` from the source: relocate the piece on the live board
and set `currentSide` from the moved piece's side. -/
def ChessEngine.onPieceWasMoved (e : ChessEngine) (event : PieceWasMoved) : ChessEngine :=
  { board := e.board.movePiece event.squareFrom event.squareTo,
    currentSide := ChessEngine.changeTurn event.piece.side }

/-- `move` from the source, in state-passing form: the JS method mutates
`this` and throws on failure; here it returns the outcome together with the
engine state after the call.  Each `throw` site appears before any mutating
statement, so every error branch returns the entry state unchanged. -/
def ChessEngine.move (e : ChessEngine) (byPlayer : Player) (squareFrom squareTo : Square) :
    Except MoveError (List MoveEvent) × ChessEngine :=
  match e.board.onPositionPiece squareFrom with
  | none => (Except.error MoveError.illegalMove, e)
  | some chosenPiece =>
    if byPlayer.side ≠ e.currentSide then (Except.error MoveError.outOfTurn, e)
    else if byPlayer.side ≠ chosenPiece.side then (Except.error MoveError.wrongOwner, e)
    else if ¬ e.canMoveOnSquare squareFrom squareTo = true then
      (Except.error MoveError.illegalDestination, e)
    else
      let movedEvent : PieceWasMoved :=
        { piece := chosenPiece, squareFrom := squareFrom, squareTo := squareTo }
      let capturedEvent := e.pieceWasCaptured squareTo chosenPiece
      let e2 := e.onPieceWasMoved movedEvent
      match capturedEvent with
      | some c => (Except.ok [MoveEvent.moved movedEvent, MoveEvent.captured c], e2)
      | none => (Except.ok [MoveEvent.moved movedEvent], e2)

/-- `returnWirtualProposedBoardAfterMove` from the source: deep-copy the
board (value semantics here; instance identity is studied separately with
`TaggedBoard` below), delete the source key and assign the destination key.
The piece assigned is the one looked up at `squareFrom` — the source looks
it up on the original board, which value-semantically equals the clone's.
When `squareFrom` is empty the source assigns `undefined as Piece`; the
total model renders that dead branch as the destination key absent. -/
def returnWirtualProposedBoardAfterMove (chessboard : Chessboard)
    (squareFrom squareTo : Square) : Chessboard :=
  match chessboard.onPositionPiece squareFrom with
  | some movedPiece =>
    ⟨setSquare (eraseSquare chessboard.squaresWithPiece squareFrom) squareTo movedPiece⟩
  | none =>
    ⟨eraseSquare (eraseSquare chessboard.squaresWithPiece squareFrom) squareTo⟩

/-- `kingPosition` from the source: the first map entry whose piece is named
`"King"` and has the given side; its key, parsed back into a square. -/
def kingPosition (kingSide : Side) (chessboard : Chessboard) : Option Square :=
  (chessboard.squaresWithPiece.find?
      (fun e => decide (e.2.name = "King") && decide (e.2.side = kingSide))).map
    (fun e => e.1)

/-- `isKingChecked` from the source: scan every map entry; for entries of
the enemy side, generate that piece's destinations from its key's square
and compare each against the king position.  The source compares
`JSON.stringify` images; with a missing king that compares a string with
`undefined` and is always false, modelled by comparing against `none`. -/
def isKingChecked (chessboard : Chessboard) (kingSide : Side) : Bool :=
  let kingPos := kingPosition kingSide chessboard
  chessboard.squaresWithPiece.any
    (fun e =>
      decide (e.2.side ≠ kingSide) &&
        (e.2.possibleMoves e.1 chessboard).any
          (fun checkedPosition => decide (some checkedPosition = kingPos)))

/-- `willBeKingChecked` from the source: build the proposed board for the
candidate move and test whether `currentSide`'s king is checked on it. -/
def ChessEngine.willBeKingChecked (e : ChessEngine) (squareFrom squareTo : Square) : Bool :=
  isKingChecked (returnWirtualProposedBoardAfterMove e.board squareFrom squareTo) e.currentSide

/-- `returnPlayerMovesWithoutThoseThatCauseHisKingToCheck` from the source:
the piece's pseudo-legal destinations (empty when the square is empty, the
`?? []` fallback), keeping those whose simulated move does not check the
king. -/
def ChessEngine.returnPlayerMovesWithoutThoseThatCauseHisKingToCheck
    (e : ChessEngine) (position : Square) : List Square :=
  let initialPossibleMoves :=
    match e.board.onPositionPiece position with
    | some piece => piece.possibleMoves position e.board
    | none => []
  initialPossibleMoves.filter
    (fun onePossibleMove => ! e.willBeKingChecked position onePossibleMove)

/-- `possibleMoves` from the source. -/
def ChessEngine.possibleMoves (e : ChessEngine) (position : Square) : List Square :=
  e.returnPlayerMovesWithoutThoseThatCauseHisKingToCheck position

/-!
Instance-level refinement of the board, used to study object identity in
`returnWirtualProposedBoardAfterMove`.  Every piece object carries an
instance tag; `_.cloneDeep` produces entries with the same data under fresh
tags, while plain assignment copies a reference, i.e. keeps the tag.
-/

/-- A piece object reference: an instance tag plus the piece data. -/
structure TaggedPiece where
  inst : Nat
  piece : Piece
  deriving DecidableEq, Repr

/-- The board, at the level of piece object references. -/
structure TaggedBoard where
  squaresWithPiece : List (Square × TaggedPiece)
  deriving DecidableEq, Repr

/-- Lookup on the tagged board: the reference stored at the key. -/
def TaggedBoard.onPositionPiece (cb : TaggedBoard) (sq : Square) : Option TaggedPiece :=
  (cb.squaresWithPiece.find? (fun e => decide (e.1 = sq))).map (fun e => e.2)

/-- `_.cloneDeep` on the map: every entry keeps its key and piece data but
receives a fresh instance tag (`fresh`, `fresh + 1`, ...). -/
def cloneDeepEntries : List (Square × TaggedPiece) → Nat → List (Square × TaggedPiece)
  | [], _ => []
  | e :: rest, fresh => (e.1, ⟨fresh, e.2.piece⟩) :: cloneDeepEntries rest (fresh + 1)

/-- `_.cloneDeep` of the board, allocating tags from `fresh` upward. -/
def cloneDeep (cb : TaggedBoard) (fresh : Nat) : TaggedBoard :=
  ⟨cloneDeepEntries cb.squaresWithPiece fresh⟩

/-- JS `delete map[key]` on the tagged map. -/
def eraseSquareT (l : List (Square × TaggedPiece)) (sq : Square) :
    List (Square × TaggedPiece) :=
  l.filter (fun e => decide (e.1 ≠ sq))

/-- JS `map[key] = ref` on the tagged map: the stored reference is the very
argument, tag included. -/
def setSquareT (l : List (Square × TaggedPiece)) (sq : Square) (tp : TaggedPiece) :
    List (Square × TaggedPiece) :=
  eraseSquareT l sq ++ [(sq, tp)]

/-- `returnWirtualProposedBoardAfterMove` at the instance level, following
the source statement for statement: clone the board deeply, then look the
moved piece up on the ORIGINAL board (`chessboard.onPositionPiece`, not the
clone), delete the source key on the clone and assign the destination key
on the clone to that original reference. -/
def returnWirtualProposedBoardAfterMoveT (chessboard : TaggedBoard) (fresh : Nat)
    (squareFrom squareTo : Square) : TaggedBoard :=
  let wirtualPorposedChessboard := cloneDeep chessboard fresh
  match chessboard.onPositionPiece squareFrom with
  | some movedPiece =>
    ⟨setSquareT (eraseSquareT wirtualPorposedChessboard.squaresWithPiece squareFrom)
        squareTo movedPiece⟩
  | none =>
    ⟨eraseSquareT (eraseSquareT wirtualPorposedChessboard.squaresWithPiece squareFrom)
        squareTo⟩

/-!  Concrete fixtures used by the witnesses below. -/

def whiteKing : Piece := ⟨"WK", PieceKind.king, Side.white⟩

def whiteRook : Piece := ⟨"WR", PieceKind.rook, Side.white⟩

def whitePawn : Piece := ⟨"WP", PieceKind.pawn, Side.white⟩

def blackKing : Piece := ⟨"BK", PieceKind.king, Side.black⟩

def blackRook : Piece := ⟨"BR", PieceKind.rook, Side.black⟩

def blackPawn : Piece := ⟨"BP", PieceKind.pawn, Side.black⟩

def sqA4 : Square := ⟨'A', 4⟩

def sqE1 : Square := ⟨'E', 1⟩

def sqE2 : Square := ⟨'E', 2⟩

def sqE3 : Square := ⟨'E', 3⟩

def sqE4 : Square := ⟨'E', 4⟩

def sqE8 : Square := ⟨'E', 8⟩

def sqD2 : Square := ⟨'D', 2⟩

def sqD3 : Square := ⟨'D', 3⟩

def sqD7 : Square := ⟨'D', 7⟩

def sqD8 : Square := ⟨'D', 8⟩

/-- White king on E1, white rook on E2 (pinned by the black rook on E8). -/
def pinBoard : Chessboard :=
  ⟨[(sqE1, whiteKing), (sqE2, whiteRook), (sqE8, blackRook)]⟩

def pinEngine : ChessEngine := ⟨Side.white, pinBoard⟩

/-- White king on E1, white rook on E4, black rook on E8: moving the white
rook off the e-file exposes the white king. -/
def exposedBoard : Chessboard :=
  ⟨[(sqE1, whiteKing), (sqE4, whiteRook), (sqE8, blackRook)]⟩

def exposedEngine : ChessEngine := ⟨Side.white, exposedBoard⟩

/-- White rook on D2, black pawn on D7: a capture target for `move`. -/
def captureBoard : Chessboard :=
  ⟨[(sqE1, whiteKing), (sqD2, whiteRook), (sqD7, blackPawn), (sqD8, blackKing)]⟩

def captureEngine : ChessEngine := ⟨Side.white, captureBoard⟩

def whitePlayer : Player := ⟨Side.white⟩

def blackPlayer : Player := ⟨Side.black⟩

/-- Tagged board: white pawn (instance 0) on E2, white king (instance 1) on
E1. -/
def taggedBoard0 : TaggedBoard :=
  ⟨[(sqE2, ⟨0, whitePawn⟩), (sqE1, ⟨1, whiteKing⟩)]⟩

/-- Kingless board used to witness the absent-king branch. -/
def kinglessBoard : Chessboard := ⟨[(sqE8, blackRook)]⟩

/-- White king on E1 attacked by the black rook on E8. -/
def checkBoard : Chessboard := ⟨[(sqE1, whiteKing), (sqE8, blackRook)]⟩

/-!  Theorems. -/

/-- C1: for a position occupied by a piece, `possibleMoves` returns exactly
the piece's pseudo-legal destinations (computed on the live board) whose
simulated application does not leave `currentSide`'s king checked, and the
discarded candidates are exactly those for which `isKingChecked` on the
hypothetical board is true. -/
theorem possibleMoves_filters_exactly_king_safety (e : ChessEngine) (position : Square)
    (p : Piece) (hp : e.board.onPositionPiece position = some p) :
    e.possibleMoves position =
      (p.possibleMoves position e.board).filter
        (fun m => ! isKingChecked (returnWirtualProposedBoardAfterMove e.board position m)
            e.currentSide)
    ∧ ∀ m ∈ p.possibleMoves position e.board,
        (m ∈ e.possibleMoves position ↔
          isKingChecked (returnWirtualProposedBoardAfterMove e.board position m)
            e.currentSide = false) := by
  have hmain : e.possibleMoves position =
      (p.possibleMoves position e.board).filter
        (fun m => ! isKingChecked (returnWirtualProposedBoardAfterMove e.board position m)
            e.currentSide) := by
    simp [ChessEngine.possibleMoves,
      ChessEngine.returnPlayerMovesWithoutThoseThatCauseHisKingToCheck, hp,
      ChessEngine.willBeKingChecked]
  refine ⟨hmain, ?_⟩
  intro m hm
  rw [hmain, List.mem_filter]
  simp [hm]

theorem possibleMoves_filters_exactly_king_safety_witness :
    ChessEngine.possibleMoves pinEngine sqE2 =
      (Piece.possibleMoves whiteRook sqE2 pinEngine.board).filter
        (fun m => ! isKingChecked (returnWirtualProposedBoardAfterMove pinEngine.board sqE2 m)
            pinEngine.currentSide) :=
  (possibleMoves_filters_exactly_king_safety pinEngine sqE2 whiteRook rfl).1

/-- C2: `isKingChecked` is true exactly when some piece of the opposing
side has the king's square among its pseudo-legal destinations on that
board, and it is false whenever no king of that side is on the board. -/
theorem isKingChecked_iff_attacked (cb : Chessboard) (kingSide : Side) :
    (kingPosition kingSide cb = none → isKingChecked cb kingSide = false)
    ∧ ∀ ksq, kingPosition kingSide cb = some ksq →
        (isKingChecked cb kingSide = true ↔
          ∃ entry ∈ cb.squaresWithPiece, entry.2.side ≠ kingSide ∧
            ksq ∈ entry.2.possibleMoves entry.1 cb) := by
  constructor
  · intro h
    simp [isKingChecked, h]
  · intro ksq h
    simp [isKingChecked, h, List.any_eq_true, and_assoc]

theorem isKingChecked_iff_attacked_witness :
    isKingChecked checkBoard Side.white = true ∧
      isKingChecked kinglessBoard Side.white = false :=
  ⟨((isKingChecked_iff_attacked checkBoard Side.white).2 sqE1 rfl).mpr
      ⟨(sqE8, blackRook), by decide, by decide, by decide⟩,
    (isKingChecked_iff_attacked kinglessBoard Side.white).1 rfl⟩

/-- C9: `Pawn.possibleMoves` is the concatenation of the three sub-rules in
the order straight advance, double advance, diagonal capture, and nothing
else; the first two sub-rules contribute at most one destination each and
the diagonal sub-rule at most two. -/
theorem pawn_moves_concat_three_subrules (p : Piece) (position : Square) (board : Chessboard) :
    pawnPossibleMoves p position board =
      goAhead p position board ++ goDoubleAhead p position board ++
        goDiagonalAhead p position board
    ∧ (goAhead p position board).length ≤ 1
    ∧ (goDoubleAhead p position board).length ≤ 1
    ∧ (goDiagonalAhead p position board).length ≤ 2 := by
  refine ⟨by simp [pawnPossibleMoves], ?_, ?_, ?_⟩
  · unfold goAhead
    split
    · simp
    · split <;> simp
  · unfold goDoubleAhead
    split
    · split
      · split <;> simp
      · simp
    · simp
  · unfold goDiagonalAhead
    calc (List.filter _ (List.filterMap id [shiftSquare position (-1) (pawnDirection p.side),
          shiftSquare position 1 (pawnDirection p.side)])).length
      ≤ (List.filterMap id [shiftSquare position (-1) (pawnDirection p.side),
          shiftSquare position 1 (pawnDirection p.side)]).length := List.length_filter_le _ _
    _ ≤ 2 := List.length_filterMap_le id _

/-- C3: once a piece is on the source square, it is the mover's turn and the
mover owns the piece, `move` succeeds exactly when the destination is among
the piece's pseudo-legal destinations on the current live board — the
king-safety constraint is not consulted. -/
theorem move_succeeds_iff_pseudolegal (e : ChessEngine) (pl : Player)
    (squareFrom squareTo : Square) (p : Piece)
    (h1 : e.board.onPositionPiece squareFrom = some p)
    (h2 : pl.side = e.currentSide) (h3 : pl.side = p.side) :
    (∃ events, (e.move pl squareFrom squareTo).1 = Except.ok events) ↔
      squareTo ∈ p.possibleMoves squareFrom e.board := by
  have hcan : e.canMoveOnSquare squareFrom squareTo = true ↔
      squareTo ∈ p.possibleMoves squareFrom e.board := by
    simp only [ChessEngine.canMoveOnSquare, h1, List.any_eq_true, Bool.and_eq_true,
      decide_eq_true_eq]
    constructor
    · rintro ⟨m, hm, hc, hr⟩
      have hms : m = squareTo := by
        cases m
        cases squareTo
        simp_all
      exact hms ▸ hm
    · intro hmem
      exact ⟨squareTo, hmem, rfl, rfl⟩
  simp only [ChessEngine.move, h1]
  rw [if_neg (by simp [h2]), if_neg (by simp [h3])]
  by_cases hc : e.canMoveOnSquare squareFrom squareTo = true
  · rw [if_neg (by simp [hc])]
    cases hcap : e.pieceWasCaptured squareTo p <;> simp [hcan.mp hc]
  · rw [if_pos hc]
    constructor
    · rintro ⟨ev, hev⟩
      cases hev
    · intro hmem
      exact absurd (hcan.mpr hmem) hc

theorem move_succeeds_iff_pseudolegal_witness :
    (∃ events, (ChessEngine.move exposedEngine whitePlayer sqE4 sqA4).1 = Except.ok events)
    ∧ ChessEngine.willBeKingChecked exposedEngine sqE4 sqA4 = true :=
  ⟨(move_succeeds_iff_pseudolegal exposedEngine whitePlayer sqE4 sqA4 whiteRook rfl rfl
      rfl).mpr (by decide),
    by decide⟩

/-- C4: a successful `move` returns the `PieceWasMoved` event first, then a
`PieceWasCaptured` event exactly when the destination held an opposing
piece immediately before the move was applied, and nothing else. -/
theorem pieceWasCaptured_some_iff (e : ChessEngine) (squareTo : Square)
    (chosenPiece : Piece) (c : PieceWasCaptured) :
    e.pieceWasCaptured squareTo chosenPiece = some c ↔
      ∃ q, e.board.onPositionPiece squareTo = some q ∧ q.side ≠ chosenPiece.side ∧
        c = ⟨q, squareTo⟩ := by
  unfold ChessEngine.pieceWasCaptured
  cases hq : e.board.onPositionPiece squareTo with
  | none => simp
  | some q =>
    dsimp only
    by_cases hside : q.side ≠ chosenPiece.side
    · rw [if_pos (by simp [Piece.isOpponentOf, hside])]
      constructor
      · intro h
        cases h
        exact ⟨q, rfl, hside, rfl⟩
      · rintro ⟨q', hq', hside', rfl⟩
        cases hq'
        rfl
    · rw [if_neg (by simp [Piece.isOpponentOf, hside])]
      constructor
      · intro h
        cases h
      · rintro ⟨q', hq', hside', rfl⟩
        cases hq'
        exact absurd hside' hside

theorem pieceWasCaptured_none_iff (e : ChessEngine) (squareTo : Square)
    (chosenPiece : Piece) :
    e.pieceWasCaptured squareTo chosenPiece = none ↔
      ∀ q, e.board.onPositionPiece squareTo = some q → q.side = chosenPiece.side := by
  unfold ChessEngine.pieceWasCaptured
  cases hq : e.board.onPositionPiece squareTo with
  | none => simp
  | some q =>
    dsimp only
    by_cases hside : q.side ≠ chosenPiece.side
    · rw [if_pos (by simp [Piece.isOpponentOf, hside])]
      constructor
      · intro h
        cases h
      · intro h
        exact absurd (h q rfl) hside
    · rw [if_neg (by simp [Piece.isOpponentOf, hside])]
      constructor
      · intro _ q' hq'
        cases hq'
        exact not_not.mp hside
      · intro _
        rfl

theorem move_capture_event_iff (e : ChessEngine) (pl : Player)
    (squareFrom squareTo : Square) (p : Piece) (events : List MoveEvent)
    (hp : e.board.onPositionPiece squareFrom = some p)
    (hok : (e.move pl squareFrom squareTo).1 = Except.ok events) :
    ((∃ q, e.board.onPositionPiece squareTo = some q ∧ q.side ≠ p.side ∧
        events = [MoveEvent.moved ⟨p, squareFrom, squareTo⟩,
          MoveEvent.captured ⟨q, squareTo⟩])
      ∨ events = [MoveEvent.moved ⟨p, squareFrom, squareTo⟩])
    ∧ ((∃ c, MoveEvent.captured c ∈ events) ↔
        ∃ q, e.board.onPositionPiece squareTo = some q ∧ q.side ≠ p.side) := by
  simp only [ChessEngine.move, hp] at hok
  split_ifs at hok
  split at hok
  · rename_i c heq
    obtain ⟨q, hq, hside, rfl⟩ := (pieceWasCaptured_some_iff e squareTo p c).mp heq
    simp only at hok
    cases hok
    refine ⟨Or.inl ⟨q, hq, hside, rfl⟩, Iff.intro ?_ ?_⟩
    · intro _
      exact ⟨q, hq, hside⟩
    · intro _
      exact ⟨⟨q, squareTo⟩, by simp⟩
  · rename_i heq
    have hnone := (pieceWasCaptured_none_iff e squareTo p).mp heq
    simp only at hok
    cases hok
    refine ⟨Or.inr rfl, Iff.intro ?_ ?_⟩
    · rintro ⟨c, hc⟩
      simp at hc
    · rintro ⟨q, hq, hside⟩
      exact absurd (hnone q hq) hside

/-- The event list of the concrete capture scenario. -/
def captureEvents : List MoveEvent :=
  [MoveEvent.moved ⟨whiteRook, sqD2, sqD7⟩, MoveEvent.captured ⟨blackPawn, sqD7⟩]

theorem move_capture_event_iff_witness :
    ((∃ q, captureEngine.board.onPositionPiece sqD7 = some q ∧ q.side ≠ whiteRook.side ∧
        captureEvents = [MoveEvent.moved ⟨whiteRook, sqD2, sqD7⟩,
          MoveEvent.captured ⟨q, sqD7⟩])
      ∨ captureEvents = [MoveEvent.moved ⟨whiteRook, sqD2, sqD7⟩])
    ∧ ((∃ c, MoveEvent.captured c ∈ captureEvents) ↔
        ∃ q, captureEngine.board.onPositionPiece sqD7 = some q ∧ q.side ≠ whiteRook.side) :=
  move_capture_event_iff captureEngine whitePlayer sqD2 sqD7 whiteRook captureEvents rfl
    rfl

/-- C5: `move`'s four failure conditions are checked in source order —
empty source square, wrong turn, wrong owner, unreachable destination —
each error arises exactly when its condition holds and all earlier checks
passed, and when all four checks pass the call succeeds. -/
theorem move_error_order (e : ChessEngine) (pl : Player) (squareFrom squareTo : Square) :
    ((e.move pl squareFrom squareTo).1 = Except.error MoveError.illegalMove ↔
        e.board.onPositionPiece squareFrom = none)
    ∧ ∀ p, e.board.onPositionPiece squareFrom = some p →
        (((e.move pl squareFrom squareTo).1 = Except.error MoveError.outOfTurn ↔
            pl.side ≠ e.currentSide)
          ∧ (pl.side = e.currentSide →
              ((e.move pl squareFrom squareTo).1 = Except.error MoveError.wrongOwner ↔
                pl.side ≠ p.side))
          ∧ (pl.side = e.currentSide → pl.side = p.side →
              ((e.move pl squareFrom squareTo).1 =
                  Except.error MoveError.illegalDestination ↔
                e.canMoveOnSquare squareFrom squareTo = false))
          ∧ (pl.side = e.currentSide → pl.side = p.side →
              e.canMoveOnSquare squareFrom squareTo = true →
              ∃ events, (e.move pl squareFrom squareTo).1 = Except.ok events)) := by
  cases hsf : e.board.onPositionPiece squareFrom with
  | none =>
    refine ⟨by simp [ChessEngine.move, hsf], ?_⟩
    intro p hp
    exact Option.noConfusion hp
  | some p0 =>
    constructor
    · simp only [ChessEngine.move, hsf]
      cases hcap : e.pieceWasCaptured squareTo p0 <;> split_ifs <;> simp
    · intro p hp
      cases hp
      refine ⟨?_, ?_, ?_, ?_⟩
      · simp only [ChessEngine.move, hsf]
        cases hcap : e.pieceWasCaptured squareTo p0 <;>
          split_ifs with h1 h2 h3 <;> simp_all
      · intro hturn
        simp only [ChessEngine.move, hsf]
        cases hcap : e.pieceWasCaptured squareTo p0 <;>
          split_ifs with h1 h2 h3 <;> simp_all
      · intro hturn howner
        simp only [ChessEngine.move, hsf]
        cases hcap : e.pieceWasCaptured squareTo p0 <;>
          split_ifs with h1 h2 h3 <;> simp_all
      · intro hturn howner hcan
        simp only [ChessEngine.move, hsf]
        cases hcap : e.pieceWasCaptured squareTo p0 <;>
          split_ifs <;> simp_all

theorem move_error_order_witness :
    (ChessEngine.move pinEngine blackPlayer sqE2 sqE3).1 =
      Except.error MoveError.outOfTurn :=
  (((move_error_order pinEngine blackPlayer sqE2 sqE3).2 whiteRook rfl).1).mpr (by decide)

/-- C6: when `move` fails with any of the four errors, the engine state is
untouched: the board's square-to-piece mapping and `currentSide` are
exactly as they were before the call. -/
theorem move_failure_preserves_state (e : ChessEngine) (pl : Player)
    (squareFrom squareTo : Square) (err : MoveError)
    (h : (e.move pl squareFrom squareTo).1 = Except.error err) :
    (e.move pl squareFrom squareTo).2.board = e.board ∧
      (e.move pl squareFrom squareTo).2.currentSide = e.currentSide := by
  cases hsf : e.board.onPositionPiece squareFrom with
  | none => simp [ChessEngine.move, hsf]
  | some p =>
    simp only [ChessEngine.move, hsf] at h ⊢
    split_ifs at h ⊢ <;> try simp
    cases hcap : e.pieceWasCaptured squareTo p <;> rw [hcap] at h <;> cases h

theorem move_failure_preserves_state_witness :
    (ChessEngine.move pinEngine blackPlayer sqE2 sqE4).2.board = pinEngine.board ∧
      (ChessEngine.move pinEngine blackPlayer sqE2 sqE4).2.currentSide =
        pinEngine.currentSide :=
  move_failure_preserves_state pinEngine blackPlayer sqE2 sqE4 MoveError.outOfTurn rfl

/-- C7: a successful `move` flips `currentSide` to the other side exactly
once; the turn state ranges over exactly the two sides, and flipping never
fixes a side. -/
theorem move_success_flips_turn (e : ChessEngine) (pl : Player)
    (squareFrom squareTo : Square) (events : List MoveEvent)
    (h : (e.move pl squareFrom squareTo).1 = Except.ok events) :
    (e.move pl squareFrom squareTo).2.currentSide = ChessEngine.changeTurn e.currentSide
    ∧ ChessEngine.changeTurn e.currentSide ≠ e.currentSide
    ∧ ∀ s : Side, s = Side.white ∨ s = Side.black := by
  refine ⟨?_, ?_, ?_⟩
  · cases hsf : e.board.onPositionPiece squareFrom with
    | none =>
      rw [ChessEngine.move] at h
      rw [hsf] at h
      cases h
    | some p =>
      simp only [ChessEngine.move, hsf] at h ⊢
      split_ifs at h ⊢ with h1 h2 h3
      have hps : p.side = e.currentSide := by
        have := not_not.mp h1
        have := not_not.mp h2
        simp_all
      cases hcap : e.pieceWasCaptured squareTo p <;>
        simp [hcap, ChessEngine.onPieceWasMoved, hps]
  · cases e.currentSide <;> simp [ChessEngine.changeTurn]
  · intro s
    cases s
    · exact Or.inl rfl
    · exact Or.inr rfl

theorem move_success_flips_turn_witness :
    (ChessEngine.move captureEngine whitePlayer sqD2 sqD3).2.currentSide =
      ChessEngine.changeTurn captureEngine.currentSide
    ∧ ChessEngine.changeTurn captureEngine.currentSide ≠ captureEngine.currentSide
    ∧ ∀ s : Side, s = Side.white ∨ s = Side.black :=
  move_success_flips_turn captureEngine whitePlayer sqD2 sqD3
    [MoveEvent.moved ⟨whiteRook, sqD2, sqD3⟩] rfl

/-- C10: the engine's `possibleMoves` filter always tests the king of
`currentSide`; when the piece on the given position belongs to the side not
to move, the candidates are therefore filtered against the king of the
piece owner's opponent (`changeTurn` of the owner's side), not the owner's
own king. -/
theorem king_filter_uses_currentSide (e : ChessEngine) (position : Square) (p : Piece)
    (hp : e.board.onPositionPiece position = some p)
    (hside : p.side ≠ e.currentSide) :
    e.possibleMoves position =
      (p.possibleMoves position e.board).filter
        (fun m => ! isKingChecked (returnWirtualProposedBoardAfterMove e.board position m)
            (ChessEngine.changeTurn p.side)) := by
  have hct : ChessEngine.changeTurn p.side = e.currentSide := by
    cases hps : p.side <;> cases hcs : e.currentSide <;>
      simp_all [ChessEngine.changeTurn]
  rw [hct]
  simp [ChessEngine.possibleMoves,
    ChessEngine.returnPlayerMovesWithoutThoseThatCauseHisKingToCheck, hp,
    ChessEngine.willBeKingChecked]

theorem king_filter_uses_currentSide_witness :
    ChessEngine.possibleMoves pinEngine sqE8 =
      (Piece.possibleMoves blackRook sqE8 pinEngine.board).filter
        (fun m => ! isKingChecked (returnWirtualProposedBoardAfterMove pinEngine.board sqE8 m)
            (ChessEngine.changeTurn blackRook.side)) :=
  king_filter_uses_currentSide pinEngine sqE8 blackRook rfl (by decide)

/-- Entries produced by a deep copy carry tags at or above the allocation
base. -/
theorem mem_cloneDeepEntries_fresh_le (l : List (Square × TaggedPiece)) (fresh : Nat)
    (e : Square × TaggedPiece) (he : e ∈ cloneDeepEntries l fresh) :
    fresh ≤ e.2.inst := by
  induction l generalizing fresh with
  | nil => cases he
  | cons a rest ih =>
    simp only [cloneDeepEntries, List.mem_cons] at he
    cases he with
    | inl h =>
      rw [h]
    | inr h =>
      have := ih (fresh + 1) h
      omega

/-- C8, counterexample: on a concrete board the hypothetical board built by
`returnWirtualProposedBoardAfterMove` shares a piece instance with the live
board — the moved piece is looked up on the original board and stored into
the clone, so not every piece within the copy is an independent instance. -/
theorem wirtual_board_not_fully_independent :
    ¬ ∀ e ∈ (returnWirtualProposedBoardAfterMoveT taggedBoard0 2 sqE2 sqE3).squaresWithPiece,
        ∀ e0 ∈ taggedBoard0.squaresWithPiece, e.2.inst ≠ e0.2.inst := by
  decide

/-- C8, amended: the live board is never modified (the simulation is a pure
function of it), and every piece of the hypothetical board on a square
other than the destination is a fresh instance foreign to the live board;
but the piece stored at the destination square is the live board's own
instance from the source square, shared with the original. -/
theorem wirtual_board_instances (cb : TaggedBoard) (fresh : Nat)
    (squareFrom squareTo : Square) (tp : TaggedPiece)
    (hfresh : ∀ e ∈ cb.squaresWithPiece, e.2.inst < fresh)
    (hocc : cb.onPositionPiece squareFrom = some tp) :
    (∀ e ∈ (returnWirtualProposedBoardAfterMoveT cb fresh squareFrom
        squareTo).squaresWithPiece,
        e.1 ≠ squareTo → ∀ e0 ∈ cb.squaresWithPiece, e.2.inst ≠ e0.2.inst)
    ∧ (squareTo, tp) ∈ (returnWirtualProposedBoardAfterMoveT cb fresh squareFrom
        squareTo).squaresWithPiece
    ∧ ∃ e0 ∈ cb.squaresWithPiece, e0.2.inst = tp.inst := by
  have hv : returnWirtualProposedBoardAfterMoveT cb fresh squareFrom squareTo =
      ⟨setSquareT (eraseSquareT (cloneDeep cb fresh).squaresWithPiece squareFrom)
        squareTo tp⟩ := by
    unfold returnWirtualProposedBoardAfterMoveT
    rw [hocc]
  refine ⟨?_, ?_, ?_⟩
  · intro e he hne e0 he0
    rw [hv] at he
    simp only [setSquareT, List.mem_append, List.mem_singleton] at he
    cases he with
    | inr h =>
      rw [h] at hne
      exact absurd rfl hne
    | inl h =>
      have h1 : e ∈ eraseSquareT (cloneDeep cb fresh).squaresWithPiece squareFrom := by
        exact List.mem_of_mem_filter h
      have h2 : e ∈ (cloneDeep cb fresh).squaresWithPiece :=
        List.mem_of_mem_filter h1
      have h3 : fresh ≤ e.2.inst :=
        mem_cloneDeepEntries_fresh_le cb.squaresWithPiece fresh e h2
      have h4 : e0.2.inst < fresh := hfresh e0 he0
      omega
  · rw [hv]
    simp [setSquareT]
  · have hfind := hocc
    unfold TaggedBoard.onPositionPiece at hfind
    cases hfe : cb.squaresWithPiece.find? (fun e => decide (e.1 = squareFrom)) with
    | none =>
      rw [hfe] at hfind
      cases hfind
    | some found =>
      rw [hfe] at hfind
      have hmem := List.mem_of_find?_eq_some hfe
      cases hfind
      exact ⟨found, hmem, rfl⟩

theorem wirtual_board_instances_witness :
    (∀ e ∈ (returnWirtualProposedBoardAfterMoveT taggedBoard0 2 sqE2
        sqE3).squaresWithPiece,
        e.1 ≠ sqE3 → ∀ e0 ∈ taggedBoard0.squaresWithPiece, e.2.inst ≠ e0.2.inst)
    ∧ (sqE3, (⟨0, whitePawn⟩ : TaggedPiece)) ∈
        (returnWirtualProposedBoardAfterMoveT taggedBoard0 2 sqE2 sqE3).squaresWithPiece
    ∧ ∃ e0 ∈ taggedBoard0.squaresWithPiece,
        e0.2.inst = (⟨0, whitePawn⟩ : TaggedPiece).inst :=
  wirtual_board_instances taggedBoard0 2 sqE2 sqE3 ⟨0, whitePawn⟩ (by decide) rfl

end Chess
